import Mathlib

/-!
Verification of the Phase 6 semantic evidence-graph and precision-search
engine (`backend/app/services/phase6/`).  The Python sources are shallowly
embedded: evidence dicts become structures with defaulted fields, the
insertion-ordered claim dictionary becomes an association list, floats become
rationals, and the breadth-first relation traversal becomes a fuelled loop
whose fuel provably exceeds the number of iterations the source loop can
perform.  Database persistence and the collaborator filter contracts
(travel-time, open-now, business-model) are out of scope of the claims and
enter only as function or data parameters.
-/

namespace Phase6

/-! ## Text utilities (`phase6/utils.py`) -/

/-- Character class of the token regex `[a-z0-9]+` from `utils.py`. -/
def isTokenChar (c : Char) : Bool :=
  ('a' ≤ c && c ≤ 'z') || ('0' ≤ c && c ≤ '9')

/-- Per-character effect of NFKD normalization followed by combining-mark
removal, tabulated for the accented Latin letters that occur in the corpus;
on unaccented characters it is the identity, as in the source. -/
def stripAccent (c : Char) : Char :=
  if c = 'á' || c = 'à' || c = 'â' || c = 'ä' || c = 'ã' || c = 'å' then 'a'
  else if c = 'é' || c = 'è' || c = 'ê' || c = 'ë' then 'e'
  else if c = 'í' || c = 'ì' || c = 'î' || c = 'ï' then 'i'
  else if c = 'ó' || c = 'ò' || c = 'ô' || c = 'ö' || c = 'õ' then 'o'
  else if c = 'ú' || c = 'ù' || c = 'û' || c = 'ü' then 'u'
  else if c = 'ñ' then 'n'
  else if c = 'ç' then 'c'
  else if c = 'ý' || c = 'ÿ' then 'y'
  else c

/-- Models `accent_fold`: casefold, NFKD-normalize and drop combining marks.
Casefolding is per-character lowercasing and the mark removal is the
tabulated `stripAccent`. -/
def accentFold (s : String) : String :=
  String.mk (s.data.map (fun c => stripAccent c.toLower))

/-- Characters kept by `re.sub(r"[^a-z0-9\\s]", " ", folded)` in
`normalize_text`.  Inside the raw-string character class the two characters
backslash-backslash-s denote a literal backslash and the letter `s`, so the
class keeps lowercase letters, digits and the backslash character; every other
character is replaced by a space. -/
def keptChar (c : Char) : Bool :=
  isTokenChar c || c = '\x5c'

/-- Scanner for `runsOf`: `acc` holds the characters of the current run in
reverse. -/
def runsOfAux (p : Char → Bool) : List Char → List Char → List String
  | [], acc => if acc = [] then [] else [String.mk acc.reverse]
  | c :: rest, acc =>
    if p c then runsOfAux p rest (c :: acc)
    else if acc = [] then runsOfAux p rest []
    else String.mk acc.reverse :: runsOfAux p rest []

/-- Maximal runs of characters satisfying `p`, in order. -/
def runsOf (p : Char → Bool) (cs : List Char) : List String :=
  runsOfAux p cs []

/-- Models `normalize_text`: accent-fold, replace non-kept characters with
spaces, then collapse whitespace (`" ".join(cleaned.split())` — the runs of
non-space characters joined by single spaces). -/
def normalizeText (s : String) : String :=
  let folded := accentFold s
  let cleaned := String.mk (folded.data.map (fun c => if keptChar c then c else ' '))
  String.intercalate " " (runsOf (fun c => c ≠ ' ') cleaned.data)

/-- Suffix test on the character sequence, as Python `str.endswith`. -/
def strEndsWith (s suffixPart : String) : Bool :=
  decide (suffixPart.data <:+ s.data)

/-- Python `str.startswith` on the character sequence. -/
def strStartsWith (s startPart : String) : Bool :=
  decide (startPart.data <+: s.data)

/-- Python slicing `s[n:]` on the character sequence. -/
def strDrop (s : String) (n : Nat) : String :=
  String.mk (s.data.drop n)

/-- Models `singularize` from `utils.py`. -/
def singularize (token : String) : String :=
  if token.length ≤ 3 then token
  else if strEndsWith token "ies" && decide (token.length > 4) then
    String.mk (token.data.take (token.data.length - 3) ++ ['y'])
  else if strEndsWith token "es" && decide (token.length > 4) then
    String.mk (token.data.take (token.data.length - 2))
  else if strEndsWith token "s" && !strEndsWith token "ss" then
    String.mk (token.data.take (token.data.length - 1))
  else token

/-- Maximal runs of token characters, as `TOKEN_RE.findall`. -/
def tokenRuns (cs : List Char) : List String :=
  runsOf isTokenChar cs

/-- Models `tokenize`: normalize, find the token runs, and after every token
also emit its heuristic singular form when it differs. -/
def tokenize (text : String) : List String :=
  let normalized := normalizeText text
  if normalized = "" then []
  else
    let tokens := tokenRuns normalized.data
    if tokens = [] then []
    else
      tokens.flatMap (fun token =>
        let singular := singularize token
        if singular ≠ token then [token, singular] else [token])

/-- Models `ngrams`: contiguous windows of widths `min_n .. max(min_n,
min(max_n, len(tokens)))` over the given token list. -/
def ngrams (tokens : List String) (minN : Nat := 1) (maxN : Nat := 4) : List String :=
  if tokens = [] then []
  else
    let maxWidth := max minN (min maxN tokens.length)
    (List.range' minN (maxWidth + 1 - minN)).flatMap (fun width =>
      (List.range (tokens.length + 1 - width)).map (fun start =>
        String.intercalate " " ((tokens.drop start).take width)))

/-- Python `round(x, 4)`.  Rational rounding; no value in this development
sits on a rounding tie, so the tie-breaking mode is immaterial. -/
def round4 (x : ℚ) : ℚ :=
  ((round (x * 10000) : ℤ) : ℚ) / 10000

/-- Python `round(x, 2)`. -/
def round2 (x : ℚ) : ℚ :=
  ((round (x * 100) : ℤ) : ℚ) / 100

/-- The pervasive `max(0.0, min(1.0, x))` clamp. -/
def clamp01 (x : ℚ) : ℚ :=
  max 0 (min 1 x)

/-! ## Contracts (`phase6/contracts.py`) -/

/-- One raw evidence span (`EvidenceSpan` dataclass).  Provenance dicts are
modelled as association lists of string pairs; their truthiness in the source
is non-emptiness here. -/
structure EvidenceSpan where
  span_id : String
  business_id : Int := 1
  text : String
  source_kind : String
  source_id : String
  source_url : Option String := none
  snippet : String := ""
  extraction_confidence : ℚ := 1
  credibility_score : ℚ := 85
  provenance : List (String × String) := []
  normalized_text : String := ""
  tokens : List String := []
  ngrams : List String := []
deriving Repr, DecidableEq

/-- A curated relation edge (`RelationEdge` dataclass). -/
structure RelationEdge where
  source : String
  relation : String
  target : String
  provenance : String := "phase6.curated"
deriving Repr, DecidableEq

/-- One evidence entry of a claim.  The source stores these as dicts; this
structure carries every key any stage reads or writes, and a key absent from
a given dict is modelled by the stated default, matching the `.get`
fallbacks of the source.  `value` models the `"evidence"` key. -/
structure Evidence where
  kind : String := ""
  text : String := ""
  normalized : String := ""
  aliasPhrase : String := ""
  value : ℚ := 0
  hops : Nat := 0
  source_key : String := ""
  source_id : String := ""
  source_url : Option String := none
  provenance : List (String × String) := []
  path : List String := []
  from_claim : String := ""
  relation : String := ""
  rule : String := ""
deriving Repr, DecidableEq

/-- The `ClaimDraft` dataclass.  `sourceKeys` models the private
`_source_keys` set as an insertion-ordered duplicate-free list. -/
structure ClaimDraft where
  claim_id : String
  label : String
  evidence : List Evidence := []
  score : ℚ := 0
  confidence : ℚ := 0
  max_hops : Nat := 0
  is_inferred : Bool := false
  is_composed : Bool := false
  source_count : Nat := 0
  direct_support : Bool := false
  sourceKeys : List String := []
deriving Repr, DecidableEq

/-- Kinds treated as direct support by `ClaimDraft.add_evidence`. -/
def directKinds : List String :=
  ["span", "menu_item", "evidence_packet", "category_tag", "business_name"]

/-- Models `ClaimDraft.add_evidence`. -/
def addEvidence (c : ClaimDraft) (item : Evidence) : ClaimDraft :=
  let c1 := { c with evidence := c.evidence ++ [item] }
  let c2 :=
    if item.source_key ≠ "" then
      let keys :=
        if item.source_key ∈ c1.sourceKeys then c1.sourceKeys
        else c1.sourceKeys ++ [item.source_key]
      { c1 with sourceKeys := keys, source_count := keys.length }
    else c1
  let c3 := if item.kind ∈ directKinds then { c2 with direct_support := true } else c2
  { c3 with max_hops := max c3.max_hops item.hops }

/-! ## The claim dictionary

The pipeline threads a Python dict from concept id to `ClaimDraft` through its
stages.  Python dicts preserve insertion order, so the dict is modelled as an
association list with unique keys; `setdefault` appends at the end. -/

abbrev ClaimMap := List (String × ClaimDraft)

/-- First-match association-list lookup (Python `dict.get`). -/
def lookupAssoc {α : Type} : List (String × α) → String → Option α
  | [], _ => none
  | (k, v) :: rest, key => if key = k then some v else lookupAssoc rest key

/-- Keyed assignment `d[key] = v`: overwrite in place or append. -/
def insertAssoc {α : Type} (l : List (String × α)) (key : String) (v : α) :
    List (String × α) :=
  match lookupAssoc l key with
  | some _ => l.map (fun p => if p.1 = key then (p.1, v) else p)
  | none => l ++ [(key, v)]

/-- Python `dict.get` on the claim map. -/
def lookupClaim (m : ClaimMap) (key : String) : Option ClaimDraft :=
  lookupAssoc m key

/-- The key list of the claim map, in insertion order (`list(claims.keys())`). -/
def mapKeys (m : ClaimMap) : List String :=
  m.map (fun p => p.1)

/-- Python `dict.setdefault(key, dflt)`: the map after the call. -/
def setdefaultClaim (m : ClaimMap) (key : String) (dflt : ClaimDraft) : ClaimMap :=
  match lookupClaim m key with
  | some _ => m
  | none => m ++ [(key, dflt)]

/-- Mutation of the claim stored at `key` (the source mutates the shared
`ClaimDraft` object in place). -/
def updateClaim (m : ClaimMap) (key : String) (f : ClaimDraft → ClaimDraft) : ClaimMap :=
  m.map (fun p => if p.1 = key then (p.1, f p.2) else p)

/-! ## Taxonomy (`phase6/taxonomy.py`)

The alias and relation tables are configuration data loaded at startup; they
enter the embedding as the fields of this structure.  `concept_for_phrase`
normalizes the phrase and looks it up in the prepared alias table. -/

structure Taxonomy where
  aliasToConcept : List (String × String) := []
  adjacency : List (String × List RelationEdge) := []

/-- Models `Phase6Taxonomy.concept_for_phrase`. -/
def conceptForPhrase (tax : Taxonomy) (phrase : String) : Option String :=
  lookupAssoc tax.aliasToConcept (normalizeText phrase)

/-- Models `Phase6Taxonomy.label_for`: last dotted segment, underscores to
spaces. -/
def labelFor (conceptId : String) : String :=
  String.mk (((conceptId.data.splitOn '.').getLastD []).map
    (fun c => if c = '_' then ' ' else c))

/-! ## Normalizer (`NormalizerAgent.normalize`) -/

/-- Models `NormalizerAgent.normalize`: normalize each span's text, drop the
span if the normalized text is empty, otherwise fill in the token list and the
n-gram list (over `span.tokens`, which `tokenize` has already doubled with
singular forms). -/
def normalizeSpans (spans : List EvidenceSpan) : List EvidenceSpan :=
  spans.filterMap (fun span =>
    let normalized := normalizeText span.text
    if normalized = "" then none
    else
      let toks := tokenize normalized
      some { span with
        normalized_text := normalized
        tokens := toks
        ngrams := ngrams toks 1 4 })

/-! ## Concept mapper (`ConceptMapperAgent.map`) -/

/-- The `source_key` built by the mapper for a span. -/
def spanSourceKey (span : EvidenceSpan) : String :=
  span.source_id ++ "|" ++ (span.source_url.getD "") ++ "|" ++ span.span_id

/-- The clamped average of extraction confidence and credibility. -/
def spanEvidenceValue (span : EvidenceSpan) : ℚ :=
  clamp01 ((span.extraction_confidence + span.credibility_score / 100) / 2)

/-- The evidence entry the mapper appends for a span/phrase hit. -/
def mapperEvidence (span : EvidenceSpan) (phrase : String) : Evidence :=
  { kind := span.source_kind
    text := span.text
    normalized := span.normalized_text
    aliasPhrase := phrase
    value := round4 (spanEvidenceValue span)
    hops := 0
    source_key := spanSourceKey span
    source_id := span.source_id
    source_url := span.source_url
    provenance := span.provenance }

/-- First-occurrence deduplication.  Python builds `set(span.ngrams)` whose
iteration order is unspecified; it is modelled as first-occurrence order. -/
def dedupFirst (l : List String) : List String :=
  l.foldl (fun acc x => if x ∈ acc then acc else acc ++ [x]) []

/-- Stable sort by length, longest first (`sorted(..., key=len, reverse=True)`). -/
def sortByLengthDesc (l : List String) : List String :=
  l.insertionSort (fun a b => b.length ≤ a.length)

/-- Candidate phrases for one span: the full normalized text, then the
deduplicated n-grams longest first. -/
def mapperCandidates (span : EvidenceSpan) : List String :=
  span.normalized_text :: sortByLengthDesc (dedupFirst span.ngrams)

/-- One candidate phrase of one span (the body of the inner mapper loop);
`seen` is the per-span `seen_concepts` set, kept in insertion order. -/
def mapSpanPhrase (tax : Taxonomy) (span : EvidenceSpan)
    (acc : ClaimMap × List String) (phrase : String) : ClaimMap × List String :=
  match conceptForPhrase tax phrase with
  | none => acc
  | some conceptId =>
    if conceptId ∈ acc.2 then acc
    else
      let claims1 := setdefaultClaim acc.1 conceptId
        { claim_id := conceptId, label := labelFor conceptId }
      let claims2 := updateClaim claims1 conceptId
        (fun c => addEvidence c (mapperEvidence span phrase))
      (claims2, acc.2 ++ [conceptId])

/-- One span of the mapper loop; `seen_concepts` starts empty per span. -/
def mapSpan (tax : Taxonomy) (claims : ClaimMap) (span : EvidenceSpan) : ClaimMap :=
  ((mapperCandidates span).foldl (mapSpanPhrase tax span) (claims, [])).1

/-- Models `ConceptMapperAgent.map`. -/
def conceptMapperMap (tax : Taxonomy) (spans : List EvidenceSpan) : ClaimMap :=
  spans.foldl (mapSpan tax) []

/-! ## Relation arbiter (`RelationArbiterAgent.apply`) -/

/-- The traversal bound `RelationArbiterAgent.MAX_HOPS`. -/
def MAX_HOPS : Nat := 2

/-- Models `RelationArbiterAgent._serialize_path`: interleave concepts and
relation labels. -/
def serializePath : List String → List String → List String
  | [], _ => []
  | c :: cs, [] => c :: serializePath cs []
  | c :: cs, r :: rs => c :: r :: serializePath cs rs

/-- The seed strength `max(float(item.get("evidence") or 0.0) for item in
seed_claim.evidence)`; only evaluated on non-empty evidence lists. -/
def bestEvidence (c : ClaimDraft) : ℚ :=
  ((c.evidence.map (fun e => e.value)).max?).getD 0

/-- The relation evidence entry appended by the arbiter for a newly reached
`target` at depth `nextDepth`, derived from the seed claim's strength at the
time of the append. -/
def relationEvidence (seed target relationLabel edgeProvenance : String)
    (conceptPath relationPath : List String) (nextDepth : Nat)
    (seedStrength : ℚ) : Evidence :=
  let hopPenalty : ℚ := if nextDepth = 1 then 78/100 else 58/100
  let inferredStrength := clamp01 (seedStrength * hopPenalty)
  { kind := "relation"
    path := serializePath conceptPath relationPath
    from_claim := seed
    relation := relationLabel
    hops := nextDepth
    value := round4 inferredStrength
    source_key := "relation:" ++ seed ++ ":" ++ target ++ ":" ++ toString nextDepth
    source_id := "relation:" ++ seed ++ ":" ++ target
    source_url := none
    provenance := [("relation_provenance", edgeProvenance),
                   ("max_hops_enforced", toString MAX_HOPS)] }

/-- One queue entry of the arbiter's breadth-first traversal. -/
structure BfsItem where
  node : String
  depth : Nat
  conceptPath : List String
  relationPath : List String
deriving Repr, DecidableEq

/-- The mutable state of one seed's traversal: the `best_depth` dict, the
FIFO queue, and the shared claim map. -/
structure BfsState where
  bestDepth : List (String × Nat)
  queue : List BfsItem
  claims : ClaimMap

/-- The body of the arbiter's `for edge in ...` loop: lines 279-325 of
`agents.py`, acting on the traversal state for one popped item and one edge. -/
def arbiterEdgeStep (seed : String) (item : BfsItem) (st : BfsState)
    (edge : RelationEdge) : BfsState :=
  let nextDepth := item.depth + 1
  if nextDepth > MAX_HOPS then st
  else
    let target := edge.target
    let skip :=
      match lookupAssoc st.bestDepth target with
      | some existingDepth => decide (existingDepth ≤ nextDepth)
      | none => false
    if skip then st
    else
      let bestDepth1 := insertAssoc st.bestDepth target nextDepth
      let newConceptPath := item.conceptPath ++ [target]
      let newRelationPath := item.relationPath ++ [edge.relation]
      let queue1 := st.queue ++ [⟨target, nextDepth, newConceptPath, newRelationPath⟩]
      if target = seed then ⟨bestDepth1, queue1, st.claims⟩
      else
        match lookupClaim st.claims seed with
        | none => ⟨bestDepth1, queue1, st.claims⟩
        | some seedClaim =>
          if seedClaim.evidence = [] then ⟨bestDepth1, queue1, st.claims⟩
          else
            let entry := relationEvidence seed target edge.relation edge.provenance
              newConceptPath newRelationPath nextDepth (bestEvidence seedClaim)
            let claims1 := setdefaultClaim st.claims target
              { claim_id := target, label := labelFor target }
            let claims2 := updateClaim claims1 target
              (fun c => addEvidence { c with is_inferred := true } entry)
            ⟨bestDepth1, queue1, claims2⟩

/-- The arbiter's `while queue:` loop for one seed, with explicit fuel.  Each
iteration pops one queue entry, and an entry is only ever enqueued when its
target's recorded best depth strictly decreases, which can happen at most
twice per distinct edge target; `arbiterFuel` therefore strictly exceeds the
number of iterations the source loop can perform, so the fuelled loop is
never cut short on the inputs it is run on. -/
def arbiterLoop (tax : Taxonomy) (seed : String) : Nat → BfsState → ClaimMap
  | 0, st => st.claims
  | fuel + 1, st =>
    match st.queue with
    | [] => st.claims
    | item :: rest =>
      if item.depth ≥ MAX_HOPS then
        arbiterLoop tax seed fuel ⟨st.bestDepth, rest, st.claims⟩
      else
        let edges := (lookupAssoc tax.adjacency item.node).getD []
        let st1 := edges.foldl (arbiterEdgeStep seed item) ⟨st.bestDepth, rest, st.claims⟩
        arbiterLoop tax seed fuel st1

/-- Total number of relation edges in the adjacency table. -/
def taxonomySize (tax : Taxonomy) : Nat :=
  tax.adjacency.foldl (fun n p => n + p.2.length) 0

/-- Fuel exceeding the iteration count of any one seed's traversal. -/
def arbiterFuel (tax : Taxonomy) : Nat :=
  4 + 4 * taxonomySize tax

/-- Models `RelationArbiterAgent.apply`: run one bounded traversal per seed
concept (the keys present when `apply` starts), threading the claim map. -/
def relationArbiterApply (tax : Taxonomy) (claims : ClaimMap) : ClaimMap :=
  (mapKeys claims).foldl (fun acc seed =>
    arbiterLoop tax seed (arbiterFuel tax) ⟨[(seed, 0)], [⟨seed, 0, [seed], []⟩], acc⟩)
    claims

/-! ## Composition engine (`CompositionAgent.apply`) -/

/-- Models `CompositionAgent._distinct_source_keys`; the Python set is kept as
a duplicate-free list (only its size and membership are consumed). -/
def distinctSourceKeys (evidence : List Evidence) : List String :=
  evidence.foldl (fun acc e =>
    if e.source_key = "" then acc
    else if e.source_key ∈ acc then acc
    else acc ++ [e.source_key]) []

/-- The filling-claim id marker `"food.filling."`. -/
def fillingMarker : String := "food.filling."

/-- Composed claim id derived from a filling claim id
(`f"food.taco.filling.{filler}"` with `filler = claim_id.split("food.filling.", 1)[1]`). -/
def composedIdOf (cid : String) : String :=
  "food.taco.filling." ++ strDrop cid fillingMarker.length

/-- Python `str.replace("_", " ")` for the single-character arguments used by
the composition labels. -/
def underscoresToSpaces (s : String) : String :=
  String.mk (s.data.map (fun c => if c = '_' then ' ' else c))

/-- The synthetic composition evidence entry of the taco rule. -/
def tacoCompositionEvidence (fillingId composedId filler : String)
    (sourceCount : Nat) : Evidence :=
  { kind := "composition"
    rule := "taco_filling"
    path := ["food.taco", "+", fillingId, "=>", composedId]
    hops := 0
    value := 92/100
    source_key := "composition:taco_filling:" ++ filler
    source_id := "composition:taco_filling"
    source_url := none
    provenance := [("rule", "food.taco + food.filling.X => food.taco.filling.X"),
                   ("multi_source_required", "true"),
                   ("source_count", toString sourceCount)] }

/-- One iteration of the taco-rule loop over `list(claims.items())`. -/
def tacoRuleStep (tacoClaim : ClaimDraft) (acc : ClaimMap)
    (pr : String × ClaimDraft) : ClaimMap :=
  if !strStartsWith pr.1 fillingMarker then acc
  else
    let filler := strDrop pr.1 fillingMarker.length
    let composedId := "food.taco.filling." ++ filler
    let sourceKeys := distinctSourceKeys (tacoClaim.evidence ++ pr.2.evidence)
    if sourceKeys.length < 2 then acc
    else
      let acc1 := setdefaultClaim acc composedId
        { claim_id := composedId, label := "tacos de " ++ underscoresToSpaces filler }
      updateClaim acc1 composedId (fun c =>
        let c1 := { c with is_composed := true }
        let c2 := (tacoClaim.evidence.take 2 ++ pr.2.evidence.take 2).foldl addEvidence c1
        addEvidence c2 (tacoCompositionEvidence pr.1 composedId filler sourceKeys.length))

/-- The taco+filling composition rule: iterate over a snapshot of the claim
items, firing for every filling claim with joint multi-source support. -/
def tacoRule (claims : ClaimMap) : ClaimMap :=
  match lookupClaim claims "food.taco" with
  | none => claims
  | some tacoClaim => claims.foldl (tacoRuleStep tacoClaim) claims

/-- The synthetic composition evidence entry of the pedi/mani rule. -/
def pediCompositionEvidence (sourceCount : Nat) : Evidence :=
  { kind := "composition"
    rule := "pedi_mani_combo"
    path := ["service.nailpolish", "+", "service.pedicure", "=>", "service.pedi_mani_combo"]
    hops := 0
    value := 9/10
    source_key := "composition:pedi_mani_combo"
    source_id := "composition:pedi_mani_combo"
    source_url := none
    provenance := [("rule", "service.nailpolish + service.pedicure => service.pedi_mani_combo"),
                   ("multi_source_required", "true"),
                   ("source_count", toString sourceCount)] }

/-- The nail-polish + pedicure composition rule. -/
def pediRule (claims : ClaimMap) : ClaimMap :=
  match lookupClaim claims "service.nailpolish", lookupClaim claims "service.pedicure" with
  | some nailpolishClaim, some pedicureClaim =>
    let sourceKeys := distinctSourceKeys (nailpolishClaim.evidence ++ pedicureClaim.evidence)
    if sourceKeys.length ≥ 2 then
      let comboId := "service.pedi_mani_combo"
      let claims1 := setdefaultClaim claims comboId
        { claim_id := comboId, label := "pedi mani combo" }
      updateClaim claims1 comboId (fun c =>
        let c1 := { c with is_composed := true }
        let c2 := (nailpolishClaim.evidence.take 2 ++ pedicureClaim.evidence.take 2).foldl
          addEvidence c1
        addEvidence c2 (pediCompositionEvidence sourceKeys.length))
    else claims
  | _, _ => claims

/-- Models `CompositionAgent.apply`: the taco loop runs first, then the
pedi/mani rule, on the same shared claim map. -/
def compositionApply (claims : ClaimMap) : ClaimMap :=
  pediRule (tacoRule claims)

/-! ## Scoring engine (`ScoringAgent.score`) -/

/-- The fixed per-kind weight table `ScoringAgent.WEIGHTS`. -/
def WEIGHTS : List (String × ℚ) :=
  [("menu_item", 65/100), ("menu_description", 35/100), ("evidence_packet", 58/100),
   ("business_name", 42/100), ("category_tag", 45/100), ("web_text", 22/100),
   ("source_snippet", 1/5), ("relation", 28/100), ("composition", 32/100)]

/-- Weight lookup with the `0.12` default for unknown kinds. -/
def weightFor (kind : String) : ℚ :=
  (lookupAssoc WEIGHTS kind).getD (12/100)

/-- `ScoringAgent.INDEPENDENT_SUPPORT_WEIGHT`. -/
def INDEPENDENT_SUPPORT_WEIGHT : ℚ := 24/100

/-- `ScoringAgent.SCORE_CAP`. -/
def SCORE_CAP : ℚ := 27/20

/-- The unrounded score accumulated by `ScoringAgent.score` for one claim. -/
def rawScore (c : ClaimDraft) : ℚ :=
  let base := c.evidence.foldl
    (fun acc e => acc + weightFor e.kind * clamp01 e.value) 0
  let independentSupport := min 1 (max 0 (((c.source_count : ℚ) - 1) / 3))
  base + INDEPENDENT_SUPPORT_WEIGHT * independentSupport

/-- The per-claim field updates of `ScoringAgent.score` (the wall-clock
`created_at` stamp is not modelled). -/
def scoreClaim (c : ClaimDraft) : ClaimDraft :=
  { c with
    score := round4 (rawScore c)
    confidence := round4 (min 1 (rawScore c / SCORE_CAP)) }

/-- Models `ScoringAgent.score` over the whole claim map. -/
def scoringScore (claims : ClaimMap) : ClaimMap :=
  claims.map (fun p => (p.1, scoreClaim p.2))

/-- The kind-weight table exactly as the specification lists it, written as a
case distinction to be compared against the source's `WEIGHTS` lookup. -/
def specKindWeight (kind : String) : ℚ :=
  if kind = "menu_item" then 65/100
  else if kind = "menu_description" then 35/100
  else if kind = "evidence_packet" then 58/100
  else if kind = "business_name" then 42/100
  else if kind = "category_tag" then 45/100
  else if kind = "web_text" then 22/100
  else if kind = "source_snippet" then 1/5
  else if kind = "relation" then 28/100
  else if kind = "composition" then 32/100
  else 12/100

/-! ## Verifier (`VerifierAgent.verify`) -/

/-- `VerifierAgent.VERIFIED_THRESHOLD`. -/
def VERIFIED_THRESHOLD : ℚ := 17/20

/-- The sequence of `continue` guards of `VerifierAgent.verify`, as the
acceptance predicate for one claim. -/
def verifierAccepts (c : ClaimDraft) : Bool :=
  if c.max_hops > 2 then false
  else if !c.direct_support then false
  else if c.confidence < VERIFIED_THRESHOLD then false
  else if c.source_count < 1 then false
  else if c.is_composed ∧ c.source_count < 2 then false
  else c.evidence.any (fun e => !e.provenance.isEmpty)

/-- Descending-confidence order used for `claim_rows`. -/
def confidenceDescOrder (a b : ClaimDraft) : Prop :=
  b.confidence ≤ a.confidence

instance : DecidableRel confidenceDescOrder := fun a b =>
  inferInstanceAs (Decidable (b.confidence ≤ a.confidence))

/-- Models `VerifierAgent.verify` as the list of promoted claims, in the order
the source emits them (confidence-descending, stable).  The payload
serialization `as_verified_claim` and the database writes are not modelled;
the claims under verification concern which claims are promoted. -/
def verifierVerify (claims : ClaimMap) : List ClaimDraft :=
  ((claims.map (fun p => p.2)).insertionSort confidenceDescOrder).filter verifierAccepts

/-! ## Pipeline orchestration (`Phase6PrecisionPipeline.run`) -/

/-- The `Phase6PipelineStats` dataclass. -/
structure Phase6PipelineStats where
  businesses_processed : Nat := 0
  spans_extracted : Nat := 0
  claims_mapped : Nat := 0
  claims_verified : Nat := 0
deriving Repr, DecidableEq

/-- The full per-business claim pipeline of `process_business`: extract and
normalize spans, map concepts, arbitrate relations, compose, score.  The span
extraction itself only shapes `EvidenceSpan` records from database rows, so
the spans are the input here. -/
def pipelineClaims (tax : Taxonomy) (spans : List EvidenceSpan) : ClaimMap :=
  scoringScore (compositionApply (relationArbiterApply tax
    (conceptMapperMap tax (normalizeSpans spans))))

/-- Models the `for business_id in target_ids:` loop of
`Phase6PrecisionPipeline.run`.  `process` stands for `process_business`
(whose body performs database I/O); a Python exception raised inside it is an
`Except.error`, and `run` contains no handler, so the error propagates.  The
triple returned by `process` is `(claim_count, verified_count, span_count)`. -/
def pipelineRun (process : Int → Except String (Nat × Nat × Nat)) :
    List Int → Phase6PipelineStats → Except String Phase6PipelineStats
  | [], stats => Except.ok stats
  | businessId :: rest, stats =>
    match process businessId with
    | Except.error e => Except.error e
    | Except.ok (claimCount, verifiedCount, spanCount) =>
      pipelineRun process rest
        { stats with
          businesses_processed := stats.businesses_processed + 1
          claims_mapped := stats.claims_mapped + claimCount
          claims_verified := stats.claims_verified + verifiedCount
          spans_extracted := stats.spans_extracted + spanCount }

/-! ## Precision search (`PrecisionSearchService.search`)

The claims under verification concern the per-candidate score assembly, the
drop threshold, the sort order and Layer 2, so a Layer-1 candidate enters the
embedding carrying the collaborator-computed data the loop body reads:
similarity from the footprint retrieval, distance from the haversine helper,
the Layer-3/4/5 scores as those layers produced them, and the combined
outcome of the walking-distance, business-model and open-now pruning. -/

/-- One persisted `VerticalSlice` row, as read by Layer 2. -/
structure VerticalSliceRow where
  slice_key : String
  category_weights : List (String × ℚ) := []
deriving Repr, DecidableEq

/-- String order used to model Python `sorted` over strings. -/
def stringAsc (a b : String) : Prop := a ≤ b

instance : DecidableRel stringAsc := fun a b =>
  inferInstanceAs (Decidable (a ≤ b))

/-- Python `sorted(set(l))`. -/
def sortDedupStrings (l : List String) : List String :=
  (dedupFirst l).insertionSort stringAsc

/-- Models `PrecisionSearchService._layer2_slice_match`. -/
def layer2SliceMatch (querySliceKeys : List String)
    (slices : List VerticalSliceRow) : Bool × List String :=
  if querySliceKeys = [] then (true, [])
  else
    let matchedKeys := slices.foldl (fun acc row =>
      if row.slice_key ∈ querySliceKeys then acc ++ [row.slice_key]
      else if (row.category_weights.map (fun p => p.1)).any
          (fun k => decide (k ∈ querySliceKeys)) then acc ++ [row.slice_key]
      else acc) []
    (!matchedKeys.isEmpty, sortDedupStrings matchedKeys)

/-- One Layer-1 candidate with the collaborator-computed inputs of the
per-candidate loop body of `search`. -/
structure SearchCandidate where
  name : String
  similarity : ℚ
  distance_km : ℚ := 0
  slices : List VerticalSliceRow := []
  literal_score : ℚ := 0
  verified_score : ℚ := 0
  deep_score : ℚ := 0
  passes_filters : Bool := true
deriving Repr, DecidableEq

/-- The precision score of lines 386-392 of `search_service.py`. -/
def precisionScore (sliceMatch : Bool) (c : SearchCandidate) : ℚ :=
  clamp01 (35/100 * max 0 c.similarity
    + 15/100 * (if sliceMatch then (1 : ℚ) else 0)
    + 2/10 * c.literal_score
    + 3/10 * max c.verified_score c.deep_score)

/-- The fields of one emitted result row that the ranking claims read. -/
structure SearchResult where
  name : String
  distance_km : ℚ
  precision_score : ℚ
  slice_match : Bool
  slice_keys : List String
deriving Repr, DecidableEq

/-- The result row built for a surviving candidate. -/
def buildResult (querySliceKeys : List String) (c : SearchCandidate) : SearchResult :=
  let layer2 := layer2SliceMatch querySliceKeys c.slices
  { name := c.name
    distance_km := round2 c.distance_km
    precision_score := round4 (precisionScore layer2.1 c)
    slice_match := layer2.1
    slice_keys := layer2.2 }

/-- The candidate loop of `search`: skip candidates pruned by the filters,
score, and drop scores below `0.28`. -/
def searchFilterMap (querySliceKeys : List String)
    (cands : List SearchCandidate) : List SearchResult :=
  cands.filterMap (fun c =>
    if !c.passes_filters then none
    else
      let sliceMatch := (layer2SliceMatch querySliceKeys c.slices).1
      if precisionScore sliceMatch c < 28/100 then none
      else some (buildResult querySliceKeys c))

/-- Python `str.lower`. -/
def lowercaseName (s : String) : String :=
  String.mk (s.data.map Char.toLower)

/-- The sort key `(-precision_score, distance_km, name.lower())` of line 441,
as a non-strict lexicographic order on result rows. -/
def searchOrder (a b : SearchResult) : Prop :=
  b.precision_score < a.precision_score ∨
    (a.precision_score = b.precision_score ∧
      (a.distance_km < b.distance_km ∨
        (a.distance_km = b.distance_km ∧
          lowercaseName a.name ≤ lowercaseName b.name)))

instance : DecidableRel searchOrder := fun a b => by
  unfold searchOrder
  exact inferInstance

instance : IsTotal SearchResult searchOrder := by
  constructor
  intro a b
  rcases lt_trichotomy a.precision_score b.precision_score with h | h | h
  · exact Or.inr (Or.inl h)
  · rcases lt_trichotomy a.distance_km b.distance_km with h2 | h2 | h2
    · exact Or.inl (Or.inr ⟨h, Or.inl h2⟩)
    · rcases le_total (lowercaseName a.name) (lowercaseName b.name) with h3 | h3
      · exact Or.inl (Or.inr ⟨h, Or.inr ⟨h2, h3⟩⟩)
      · exact Or.inr (Or.inr ⟨h.symm, Or.inr ⟨h2.symm, h3⟩⟩)
    · exact Or.inr (Or.inr ⟨h.symm, Or.inl h2⟩)
  · exact Or.inl (Or.inl h)

instance : IsTrans SearchResult searchOrder := by
  constructor
  intro a b c hab hbc
  rcases hab with h1 | ⟨h1, h1'⟩
  · rcases hbc with h2 | ⟨h2, _⟩
    · exact Or.inl (h2.trans h1)
    · exact Or.inl (h2 ▸ h1)
  · rcases hbc with h2 | ⟨h2, h2'⟩
    · exact Or.inl (h1 ▸ h2)
    · refine Or.inr ⟨h1.trans h2, ?_⟩
      rcases h1' with h3 | ⟨h3, h3'⟩
      · rcases h2' with h4 | ⟨h4, _⟩
        · exact Or.inl (h3.trans h4)
        · exact Or.inl (h4 ▸ h3)
      · rcases h2' with h4 | ⟨h4, h4'⟩
        · exact Or.inl (h3 ▸ h4)
        · exact Or.inr ⟨h3.trans h4, h3'.trans h4'⟩

/-- The tail of `search`: build the rows, sort by the precision key, and
truncate to `results[:limit]`. -/
def searchResults (querySliceKeys : List String)
    (cands : List SearchCandidate) (limit : Nat) : List SearchResult :=
  ((searchFilterMap querySliceKeys cands).insertionSort searchOrder).take limit

/-! ## Concrete instances used by counterexamples and witnesses -/

/-- A menu-description evidence entry (a kind outside `directKinds`). -/
def menuDescriptionEvidence : Evidence :=
  { kind := "menu_description"
    value := 8/10
    hops := 0
    source_key := "menu:1||menu:1:description"
    source_id := "menu:1"
    provenance := [("table", "menu_items"), ("row_id", "1"), ("field", "description")] }

/-- A claim whose only evidence entry is a menu description. -/
def menuDescriptionClaim : ClaimDraft :=
  addEvidence { claim_id := "food.taco", label := "taco" } menuDescriptionEvidence

/-- The scoring example of the spec: `[(menu_item, 0.8), (relation, 0.5)]`
with two distinct sources. -/
def scoringExampleClaim : ClaimDraft :=
  addEvidence
    (addEvidence { claim_id := "food.taco", label := "taco" }
      { kind := "menu_item", value := 8/10, source_key := "menu:1",
        source_id := "menu:1", provenance := [("t", "1")] })
    { kind := "relation", value := 1/2, source_key := "relation:1",
      source_id := "relation:1", provenance := [("t", "2")] }

/-- A span whose text is the single plural word `tacos`. -/
def tacosSpan : EvidenceSpan :=
  { span_id := "menu:1:name"
    text := "tacos"
    source_kind := "menu_item"
    source_id := "menu:1"
    extraction_confidence := 1
    credibility_score := 85 }

/-- Token extraction exactly as the spec's words describe it for the n-gram
step: the plain token runs of the normalized text, without the appended
singular duplicates.  This definition follows the spec, not the source, and
exists to be compared against the source's behaviour. -/
def specPlainTokens (normalized : String) : List String :=
  tokenRuns normalized.data

/-- A `process_business` stand-in that fails on business 1 with a malformed
record and succeeds elsewhere. -/
def failingProcess : Int → Except String (Nat × Nat × Nat) :=
  fun businessId => if businessId = 1 then Except.error "malformed record" else Except.ok (1, 1, 1)

/-- A two-node relation chain `a -r1-> b -r2-> c` used to exercise the
arbiter. -/
def chainTaxonomy : Taxonomy :=
  { adjacency :=
      [("a", [{ source := "a", relation := "r1", target := "b", provenance := "p1" }]),
       ("b", [{ source := "b", relation := "r2", target := "c", provenance := "p2" }])] }

/-- Seed claim `a` with one strong direct menu-item evidence entry. -/
def seedClaimA : ClaimDraft :=
  addEvidence { claim_id := "a", label := "a" }
    { kind := "menu_item", value := 9/10, source_key := "s1",
      source_id := "s1", provenance := [("t", "1")] }

/-- Seed claim `b` with one weak direct menu-item evidence entry. -/
def seedClaimB : ClaimDraft :=
  addEvidence { claim_id := "b", label := "b" }
    { kind := "menu_item", value := 1/10, source_key := "s2",
      source_id := "s2", provenance := [("t", "1")] }

/-- The claim map holding the two seeds, in insertion order `a`, `b`. -/
def chainClaims : ClaimMap :=
  [("a", seedClaimA), ("b", seedClaimB)]

/-- The first edge of the chain, from seed `a`. -/
def chainEdgeAB : RelationEdge :=
  { source := "a", relation := "r1", target := "b", provenance := "p1" }

/-- The initial queue item of seed `a`'s traversal. -/
def chainBfsItemA : BfsItem :=
  { node := "a", depth := 0, conceptPath := ["a"], relationPath := [] }

/-- The initial traversal state of seed `a` over `chainClaims`. -/
def chainBfsStateA : BfsState :=
  { bestDepth := [("a", 0)], queue := [], claims := chainClaims }

/-- A taco claim with one menu-item source. -/
def tacoExampleClaim : ClaimDraft :=
  addEvidence { claim_id := "food.taco", label := "taco" }
    { kind := "menu_item", value := 9/10, source_key := "menu:1",
      source_id := "menu:1", provenance := [("table", "menu_items")] }

/-- A carnitas filling claim whose only evidence shares the taco claim's
source key. -/
def fillingSingleSourceClaim : ClaimDraft :=
  addEvidence { claim_id := "food.filling.carnitas", label := "carnitas" }
    { kind := "menu_item", value := 88/100, source_key := "menu:1",
      source_id := "menu:1", provenance := [("table", "menu_items")] }

/-- The same filling claim after one more, independent evidence-packet
source. -/
def fillingTwoSourceClaim : ClaimDraft :=
  addEvidence fillingSingleSourceClaim
    { kind := "evidence_packet", value := 81/100, source_key := "evidence:44",
      source_id := "evidence:44", provenance := [("table", "evidence_packets")] }

/-- Taco and filling claims supported by a single shared source. -/
def singleSourceClaims : ClaimMap :=
  [("food.taco", tacoExampleClaim), ("food.filling.carnitas", fillingSingleSourceClaim)]

/-- Taco and filling claims jointly spanning two distinct sources. -/
def twoSourceClaims : ClaimMap :=
  [("food.taco", tacoExampleClaim), ("food.filling.carnitas", fillingTwoSourceClaim)]

/-- A surviving search candidate with negative footprint similarity. -/
def negativeSimilarityCandidate : SearchCandidate :=
  { name := "a", similarity := -(1/2), distance_km := 1,
    literal_score := 1, verified_score := 1, deep_score := 0 }

/-! ## Invariants -/

/-- The hop bound on one claim: `max_hops ≤ 2` and every evidence entry's
`hops ≤ 2`. -/
def evidenceHopsOK (c : ClaimDraft) : Prop :=
  c.max_hops ≤ 2 ∧ ∀ e ∈ c.evidence, e.hops ≤ 2

/-- The hop bound on a whole claim map. -/
def mapHopsOK (m : ClaimMap) : Prop :=
  ∀ p ∈ m, evidenceHopsOK p.2

end Phase6

namespace Phase6

/-! ## Basic lemmas about `add_evidence` and the claim dictionary -/

theorem addEvidence_evidence (c : ClaimDraft) (e : Evidence) :
    (addEvidence c e).evidence = c.evidence ++ [e] := by
  simp only [addEvidence]
  split_ifs <;> rfl

theorem addEvidence_max_hops (c : ClaimDraft) (e : Evidence) :
    (addEvidence c e).max_hops = max c.max_hops e.hops := by
  simp only [addEvidence]
  split_ifs <;> rfl

theorem addEvidence_direct_support (c : ClaimDraft) (e : Evidence) :
    (addEvidence c e).direct_support
      = (c.direct_support || decide (e.kind ∈ directKinds)) := by
  simp only [addEvidence]
  split_ifs <;> simp_all

theorem foldl_addEvidence_direct_support (items : List Evidence) (c : ClaimDraft) :
    (items.foldl addEvidence c).direct_support
      = (c.direct_support || items.any (fun e => decide (e.kind ∈ directKinds))) := by
  induction items generalizing c with
  | nil => simp
  | cons e rest ih =>
    simp only [List.foldl_cons, List.any_cons, ih, addEvidence_direct_support]
    cases c.direct_support <;> simp

theorem lookupAssoc_mem {α : Type} (l : List (String × α)) (key : String) (v : α)
    (h : lookupAssoc l key = some v) : (key, v) ∈ l := by
  induction l with
  | nil => simp [lookupAssoc] at h
  | cons p rest ih =>
    obtain ⟨k, w⟩ := p
    by_cases hk : key = k
    · subst hk
      simp [lookupAssoc] at h
      subst h
      exact List.mem_cons_self _ _
    · simp [lookupAssoc, hk] at h
      exact List.mem_cons_of_mem _ (ih h)

theorem lookupAssoc_eq_some_of_mem_nodup {α : Type} (l : List (String × α))
    (key : String) (v : α) (hnd : (l.map (fun p => p.1)).Nodup)
    (h : (key, v) ∈ l) : lookupAssoc l key = some v := by
  induction l with
  | nil => simp at h
  | cons p rest ih =>
    obtain ⟨k, w⟩ := p
    simp only [List.map_cons, List.nodup_cons] at hnd
    rcases List.mem_cons.mp h with h1 | h1
    · obtain ⟨hk, hv⟩ := Prod.mk.injEq .. ▸ h1
      injection h1 with hk hv
      subst hk; subst hv
      simp [lookupAssoc]
    · have hk : key ≠ k := by
        intro hkk
        subst hkk
        exact hnd.1 (List.mem_map.mpr ⟨(key, v), h1, rfl⟩)
      simp [lookupAssoc, hk]
      exact ih hnd.2 h1

theorem mapKeys_updateClaim (m : ClaimMap) (key : String) (f : ClaimDraft → ClaimDraft) :
    mapKeys (updateClaim m key f) = mapKeys m := by
  induction m with
  | nil => rfl
  | cons p rest ih =>
    simp only [updateClaim, mapKeys, List.map_cons] at *
    split_ifs with h
    · simpa [h] using ih
    · simpa using ih

theorem mem_mapKeys_setdefaultClaim (m : ClaimMap) (key k : String) (dflt : ClaimDraft) :
    k ∈ mapKeys (setdefaultClaim m key dflt) ↔ k ∈ mapKeys m ∨ k = key := by
  unfold setdefaultClaim
  cases h : lookupClaim m key with
  | some c =>
    simp only [iff_def]
    constructor
    · exact fun hk => Or.inl hk
    · rintro (hk | rfl)
      · exact hk
      · exact List.mem_map.mpr ⟨(k, c), lookupAssoc_mem m k c h, rfl⟩
  | none => simp [mapKeys]

theorem lookupAssoc_append_right {α : Type} (l l' : List (String × α)) (key : String)
    (h : lookupAssoc l key = none) :
    lookupAssoc (l ++ l') key = lookupAssoc l' key := by
  induction l with
  | nil => rfl
  | cons p rest ih =>
    obtain ⟨k, w⟩ := p
    by_cases hk : key = k
    · simp [lookupAssoc, hk] at h
    · simp only [lookupAssoc, hk, if_false, List.cons_append] at *
      exact ih h

/-! ## Claim C5: the `direct_support` flag -/

/-- Claim C5 (amended): after any sequence of `add_evidence` calls on a fresh
claim, `direct_support` is true iff at least one appended entry's kind is one
of `span`, `menu_item`, `evidence_packet`, `category_tag`, `business_name`.
Entries of kind `menu_description`, `web_text` or `source_snippet` therefore
do not, on their own, make `direct_support` true. -/
theorem claim5_direct_support (claimId label : String) (items : List Evidence) :
    (items.foldl addEvidence { claim_id := claimId, label := label }).direct_support = true
      ↔ ∃ e ∈ items, e.kind ∈ directKinds := by
  rw [foldl_addEvidence_direct_support]
  simp

unseal Rat.add Rat.mul Rat.inv Rat.sub in
/-- Claim C5, counterexample to the claim as stated: a claim whose only
evidence entry has kind `menu_description` — a kind that is neither
`relation` nor `composition` — still has `direct_support = false`. -/
theorem claim5_counterexample :
    menuDescriptionClaim.evidence = [menuDescriptionEvidence] ∧
    menuDescriptionEvidence.kind ≠ "relation" ∧
    menuDescriptionEvidence.kind ≠ "composition" ∧
    menuDescriptionClaim.direct_support = false := by
  refine ⟨by decide, by decide, by decide, by decide⟩

/-! ## Claim C7: batch error propagation -/

/-- Claim C7 (amended): an exception raised while processing one business is
not caught by `run`; it propagates, so the batch stops at the first failing
business id and the remaining ids are never processed.  (The CLI wrapper then
rolls the whole session back, which is what leaves previously committed
artifacts untouched.) -/
theorem claim7_error_aborts_batch (process : Int → Except String (Nat × Nat × Nat))
    (pre : List Int) (badId : Int) (post : List Int) (e : String)
    (stats : Phase6PipelineStats)
    (hok : ∀ i ∈ pre, ∃ v, process i = Except.ok v)
    (hbad : process badId = Except.error e) :
    pipelineRun process (pre ++ badId :: post) stats = Except.error e := by
  induction pre generalizing stats with
  | nil => simp [pipelineRun, hbad]
  | cons i rest ih =>
    obtain ⟨⟨claimCount, verifiedCount, spanCount⟩, hv⟩ := hok i (List.mem_cons_self i rest)
    simp only [List.cons_append, pipelineRun, hv]
    exact ih _ (fun j hj => hok j (List.mem_cons_of_mem i hj))

/-- Claim C7, witness for the amended theorem at a concrete batch. -/
theorem claim7_error_aborts_batch_witness :
    ((∀ i ∈ ([2] : List Int), ∃ v, failingProcess i = Except.ok v) ∧
      failingProcess 1 = Except.error "malformed record") ∧
    pipelineRun failingProcess ([2] ++ 1 :: [3]) {} = Except.error "malformed record" := by
  refine ⟨⟨?_, rfl⟩, ?_⟩
  · intro i hi
    simp only [List.mem_singleton] at hi
    subst hi
    exact ⟨(1, 1, 1), rfl⟩
  · exact claim7_error_aborts_batch failingProcess [2] 1 [3] "malformed record" {}
      (by intro i hi; simp only [List.mem_singleton] at hi; subst hi; exact ⟨(1, 1, 1), rfl⟩)
      rfl

/-- Claim C7, counterexample to the claim as stated: with business 1 failing
on a malformed record and business 2 healthy, the batch does not continue to
business 2 — the whole run aborts with the error. -/
theorem claim7_counterexample :
    pipelineRun failingProcess [1, 2] {} = Except.error "malformed record" ∧
    ∀ stats, pipelineRun failingProcess [1, 2] {} ≠ Except.ok stats := by
  refine ⟨rfl, ?_⟩
  intro stats h
  rw [show pipelineRun failingProcess [1, 2] {} = Except.error "malformed record" from rfl] at h
  exact Except.noConfusion h

/-! ## Claim C3: the scoring formula -/

theorem foldl_add_eq_sum {α : Type} (l : List α) (f : α → ℚ) (a : ℚ) :
    l.foldl (fun acc x => acc + f x) a = a + (l.map f).sum := by
  induction l generalizing a with
  | nil => simp
  | cons x rest ih => simp [ih, add_assoc]

theorem weightFor_eq_specKindWeight (kind : String) :
    weightFor kind = specKindWeight kind := by
  simp only [weightFor, WEIGHTS, lookupAssoc, specKindWeight]
  split_ifs <;> rfl

theorem rawScore_eq_spec (c : ClaimDraft) :
    rawScore c = (c.evidence.map (fun e => specKindWeight e.kind * clamp01 e.value)).sum
      + 24/100 * min 1 (max 0 (((c.source_count : ℚ) - 1) / 3)) := by
  unfold rawScore INDEPENDENT_SUPPORT_WEIGHT
  rw [foldl_add_eq_sum]
  simp only [weightFor_eq_specKindWeight, zero_add]

/-- Claim C3 (amended): the scoring engine sets
`score = round4(Σ weight(kind)·clamp(value,0,1) + 0.24·clamp((sources−1)/3,0,1))`
with the fixed weight table of the claim, and
`confidence = round4(min(1, raw/1.35))` computed from the *unrounded* sum —
the only divergence from the claim as stated being that the stored confidence
is also rounded to 4 decimals (and derived from the unrounded sum), rather
than being exactly `clamp(score/1.35, 0, 1)`. -/
theorem claim3_scoring_formula (claims : ClaimMap) :
    (scoringScore claims).Forall (fun p => ∃ c0, (p.1, c0) ∈ claims ∧
      p.2.score = round4 ((c0.evidence.map (fun e => specKindWeight e.kind * clamp01 e.value)).sum
        + 24/100 * min 1 (max 0 (((c0.source_count : ℚ) - 1) / 3))) ∧
      p.2.confidence = round4 (min 1
        (((c0.evidence.map (fun e => specKindWeight e.kind * clamp01 e.value)).sum
          + 24/100 * min 1 (max 0 (((c0.source_count : ℚ) - 1) / 3))) / (27/20)))) := by
  rw [List.forall_iff_forall_mem]
  intro p hp
  unfold scoringScore at hp
  obtain ⟨⟨k, c0⟩, hmem, rfl⟩ := List.mem_map.mp hp
  refine ⟨c0, hmem, ?_, ?_⟩
  · simp [scoreClaim, rawScore_eq_spec]
  · simp [scoreClaim, rawScore_eq_spec, SCORE_CAP]

unseal Rat.add Rat.mul Rat.inv Rat.sub in
/-- Claim C3, counterexample to the claim as stated: for the spec's own
example claim (`[(menu_item, 0.8), (relation, 0.5)]`, two distinct sources)
the stored score is exactly `0.74`, but the stored confidence is the rounded
`0.5481`, which differs from `clamp(score/1.35, 0, 1) = 74/135`. -/
theorem claim3_counterexample :
    (scoreClaim scoringExampleClaim).score = 74/100 ∧
    (scoreClaim scoringExampleClaim).score
      = round4 (65/100 * (8/10) + 28/100 * (1/2) + 24/100 * ((2 - 1) / 3)) ∧
    (scoreClaim scoringExampleClaim).confidence
      ≠ max 0 (min 1 ((scoreClaim scoringExampleClaim).score / SCORE_CAP)) := by
  refine ⟨by decide, by decide, by decide⟩

/-! ## Claim C4: the verification gate -/

theorem verifierAccepts_iff (c : ClaimDraft) :
    verifierAccepts c = true ↔
      (c.max_hops ≤ 2 ∧ c.direct_support = true ∧ VERIFIED_THRESHOLD ≤ c.confidence ∧
        1 ≤ c.source_count ∧ (c.is_composed = true → 2 ≤ c.source_count) ∧
        ∃ e ∈ c.evidence, e.provenance ≠ []) := by
  unfold verifierAccepts
  split_ifs with h1 h2 h3 h4 h5
  · simp only [false_iff]
    intro hc
    exact absurd hc.1 (Nat.not_le.mpr h1)
  · simp only [Bool.not_eq_true'] at h2
    simp [h2]
  · simp only [false_iff]
    intro hc
    exact absurd hc.2.2.1 (not_le.mpr h3)
  · simp only [false_iff]
    intro hc
    exact absurd hc.2.2.2.1 (Nat.not_le.mpr h4)
  · simp only [false_iff]
    intro hc
    exact absurd (hc.2.2.2.2.1 h5.1) (Nat.not_le.mpr h5.2)
  · have h1' : c.max_hops ≤ 2 := Nat.not_lt.mp h1
    have h2' : c.direct_support = true := by
      by_contra hd
      exact h2 (by simp [hd])
    have h3' : VERIFIED_THRESHOLD ≤ c.confidence := not_lt.mp h3
    have h4' : 1 ≤ c.source_count := Nat.not_lt.mp h4
    have h5' : c.is_composed = true → 2 ≤ c.source_count := by
      intro hcomp
      by_contra hs
      exact h5 ⟨by simp [hcomp], Nat.not_le.mp hs⟩
    constructor
    · intro hany
      obtain ⟨e, he, hprov⟩ := List.any_eq_true.mp hany
      refine ⟨h1', h2', h3', h4', h5', e, he, ?_⟩
      simpa [List.isEmpty_iff] using hprov
    · rintro ⟨-, -, -, -, -, e, he, hprov⟩
      refine List.any_eq_true.mpr ⟨e, he, ?_⟩
      simpa [List.isEmpty_iff] using hprov

/-- Claim C4: a claim is promoted by the verifier iff it is in the claim map
and satisfies `max_hops ≤ 2`, direct support, `confidence ≥ 0.85`, at least
one distinct source, at least two distinct sources when composed, and at
least one evidence entry with non-empty provenance. -/
theorem claim4_verification_gate (claims : ClaimMap) (c : ClaimDraft) :
    c ∈ verifierVerify claims ↔
      (c ∈ claims.map (fun p => p.2) ∧ c.max_hops ≤ 2 ∧ c.direct_support = true ∧
        VERIFIED_THRESHOLD ≤ c.confidence ∧ 1 ≤ c.source_count ∧
        (c.is_composed = true → 2 ≤ c.source_count) ∧
        ∃ e ∈ c.evidence, e.provenance ≠ []) := by
  unfold verifierVerify
  rw [List.mem_filter, (List.perm_insertionSort confidenceDescOrder _).mem_iff,
    verifierAccepts_iff]

/-! ## Claim C6: n-gram generation -/

theorem mem_ngrams_iff (tokens : List String) (g : String) :
    g ∈ ngrams tokens 1 4 ↔ ∃ width start, 1 ≤ width ∧ width ≤ min 4 tokens.length ∧
      start + width ≤ tokens.length ∧
      g = String.intercalate " " ((tokens.drop start).take width) := by
  by_cases hne : tokens = []
  · subst hne
    constructor
    · intro hg
      rw [show ngrams ([] : List String) 1 4 = [] from rfl] at hg
      exact absurd hg (List.not_mem_nil g)
    · rintro ⟨width, start, h1, h2, -, -⟩
      simp only [List.length_nil] at h2
      omega
  · have hlen : 1 ≤ tokens.length := List.length_pos.mpr hne
    unfold ngrams
    simp only [if_neg hne, List.mem_flatMap, List.mem_map, List.mem_range, List.mem_range'_1]
    constructor
    · rintro ⟨width, ⟨hw1, hw2⟩, start, hs, rfl⟩
      exact ⟨width, start, hw1, by omega, by omega, rfl⟩
    · rintro ⟨width, start, hw1, hw2, hs, rfl⟩
      exact ⟨width, ⟨hw1, by omega⟩, start, by omega, rfl⟩

/-- Claim C6 (amended): for every span surviving normalization, the span's
n-gram list is exactly the list of contiguous windows of widths
`1..min(4, |tokens|)` over `span.tokens` — which is the *duplicated* token
list that `tokenize` produces, in which each token is followed by its
heuristic singular form when that differs; windows may therefore span a token
and its appended singular duplicate. -/
theorem claim6_ngram_windows (spans : List EvidenceSpan) :
    (normalizeSpans spans).Forall (fun sp =>
      sp.tokens = tokenize sp.normalized_text ∧
      ∀ g, g ∈ sp.ngrams ↔ ∃ width start, 1 ≤ width ∧ width ≤ min 4 sp.tokens.length ∧
        start + width ≤ sp.tokens.length ∧
        g = String.intercalate " " ((sp.tokens.drop start).take width)) := by
  rw [List.forall_iff_forall_mem]
  intro sp hsp
  unfold normalizeSpans at hsp
  obtain ⟨span, hspan, hmap⟩ := List.mem_filterMap.mp hsp
  by_cases hn : normalizeText span.text = ""
  · simp [hn] at hmap
  · simp only [if_neg hn, Option.some.injEq] at hmap
    subst hmap
    constructor
    · rfl
    · intro g
      exact mem_ngrams_iff _ g

unseal Rat.add Rat.mul Rat.inv Rat.sub in
/-- Claim C6, counterexample to the claim as stated: for the span `"tacos"`
the normalizer produces tokens `["tacos", "taco"]` (the singular duplicate is
appended) and n-grams `["tacos", "taco", "tacos taco"]`, of which
`"tacos taco"` is a window spanning the token and its appended singular
duplicate; the windows over the plain token sequence `["tacos"]` of the
normalized text would be just `["tacos"]`. -/
theorem claim6_counterexample :
    (normalizeSpans [tacosSpan]).map (fun sp => (sp.tokens, sp.ngrams))
      = [(["tacos", "taco"], ["tacos", "taco", "tacos taco"])] ∧
    specPlainTokens (normalizeText "tacos") = ["tacos"] ∧
    ngrams (specPlainTokens (normalizeText "tacos")) 1 4 = ["tacos"] ∧
    "tacos taco" ∉ ngrams (specPlainTokens (normalizeText "tacos")) 1 4 := by
  refine ⟨by decide, by decide, by decide, by decide⟩

/-! ## Claim C9: precision scoring, drop threshold and ranking -/

theorem mem_searchFilterMap (querySliceKeys : List String)
    (cands : List SearchCandidate) (r : SearchResult) :
    r ∈ searchFilterMap querySliceKeys cands ↔ ∃ c ∈ cands,
      c.passes_filters = true ∧
      28/100 ≤ precisionScore (layer2SliceMatch querySliceKeys c.slices).1 c ∧
      r = buildResult querySliceKeys c := by
  unfold searchFilterMap
  rw [List.mem_filterMap]
  constructor
  · rintro ⟨c, hc, hr⟩
    by_cases hpf : c.passes_filters = true
    · by_cases hth : precisionScore (layer2SliceMatch querySliceKeys c.slices).1 c < 28/100
      · simp [hpf, hth] at hr
      · simp only [hpf, Bool.not_true, Bool.false_eq_true, if_false, if_neg hth,
          Option.some.injEq] at hr
        exact ⟨c, hc, hpf, not_lt.mp hth, hr.symm⟩
    · simp only [Bool.not_eq_true] at hpf
      simp [hpf] at hr
  · rintro ⟨c, hc, hpf, hth, rfl⟩
    exact ⟨c, hc, by simp [hpf, if_neg (not_lt.mpr hth)]⟩

/-- Claim C9 (amended): every returned result comes from a surviving
candidate and carries
`precision = round4(clamp(0.35·max(0, similarity) + 0.15·[slice] +
0.20·literal + 0.30·max(verified, layer4), 0, 1))` — the similarity term is
clamped below at `0` before weighting, which is the one divergence from the
claim as stated; every returned result's unrounded precision is at least
`0.28`; and the result list is sorted by descending precision score, then
ascending distance, then ascending lowercased name. -/
theorem claim9_search_scoring (querySliceKeys : List String)
    (cands : List SearchCandidate) (limit : Nat) :
    (searchResults querySliceKeys cands limit).Forall (fun r =>
      ∃ c ∈ cands, c.passes_filters = true ∧ r = buildResult querySliceKeys c ∧
        r.precision_score = round4 (clamp01 (35/100 * max 0 c.similarity
          + 15/100 * (if (layer2SliceMatch querySliceKeys c.slices).1 then (1 : ℚ) else 0)
          + 2/10 * c.literal_score + 3/10 * max c.verified_score c.deep_score)) ∧
        28/100 ≤ clamp01 (35/100 * max 0 c.similarity
          + 15/100 * (if (layer2SliceMatch querySliceKeys c.slices).1 then (1 : ℚ) else 0)
          + 2/10 * c.literal_score + 3/10 * max c.verified_score c.deep_score)) ∧
    List.Sorted searchOrder (searchResults querySliceKeys cands limit) := by
  constructor
  · rw [List.forall_iff_forall_mem]
    intro r hr
    have hr2 : r ∈ (searchFilterMap querySliceKeys cands).insertionSort searchOrder :=
      List.mem_of_mem_take hr
    rw [(List.perm_insertionSort searchOrder _).mem_iff] at hr2
    obtain ⟨c, hc, hpf, hth, rfl⟩ := (mem_searchFilterMap querySliceKeys cands _).mp hr2
    exact ⟨c, hc, hpf, rfl, rfl, hth⟩
  · exact List.Pairwise.sublist (List.take_sublist limit _)
      (List.sorted_insertionSort searchOrder _)

unseal Rat.add Rat.mul Rat.inv Rat.sub in
/-- Claim C9, counterexample to the claim as stated: a surviving candidate
with similarity `-0.5` (and slice match, literal score 1, verified score 1)
is scored `0.65` by the code, because the similarity term enters as
`0.35·max(0, similarity)`, whereas the claimed formula
`clamp(0.35·similarity + ..., 0, 1)` gives `0.475`. -/
theorem claim9_counterexample :
    (searchResults [] [negativeSimilarityCandidate] 40).map (fun r => r.precision_score)
      = [(65/100 : ℚ)] ∧
    (65/100 : ℚ) ≠ round4 (clamp01 (35/100 * (-(1/2))
      + 15/100 * 1 + 2/10 * 1 + 3/10 * max 1 0)) := by
  refine ⟨by decide, by decide⟩

/-! ## Claim C10: empty query slice-key set -/

/-- Claim C10: when the query's slice-key set is empty, Layer 2 returns
`(slice_match = true, [])` for every candidate whatever its `VerticalSlice`
rows are, and consequently every returned result's precision score carries
the full `0.15` slice-match term. -/
theorem claim10_empty_slice_keys :
    (∀ slices : List VerticalSliceRow, layer2SliceMatch [] slices = (true, [])) ∧
    ∀ (cands : List SearchCandidate) (limit : Nat),
      (searchResults [] cands limit).Forall (fun r =>
        r.slice_match = true ∧ r.slice_keys = [] ∧
        ∃ c ∈ cands, r.precision_score = round4 (clamp01 (35/100 * max 0 c.similarity
          + 15/100 + 2/10 * c.literal_score + 3/10 * max c.verified_score c.deep_score))) := by
  constructor
  · intro slices
    simp [layer2SliceMatch]
  · intro cands limit
    rw [List.forall_iff_forall_mem]
    intro r hr
    have hr2 : r ∈ (searchFilterMap [] cands).insertionSort searchOrder :=
      List.mem_of_mem_take hr
    rw [(List.perm_insertionSort searchOrder _).mem_iff] at hr2
    obtain ⟨c, hc, hpf, hth, rfl⟩ := (mem_searchFilterMap [] cands _).mp hr2
    have hl2 : layer2SliceMatch [] c.slices = (true, []) := by simp [layer2SliceMatch]
    refine ⟨by simp [buildResult, hl2], by simp [buildResult, hl2], c, hc, ?_⟩
    have harg : 35/100 * max 0 c.similarity + 15/100 * (if (layer2SliceMatch [] c.slices).1 then (1 : ℚ) else 0)
        + 2/10 * c.literal_score + 3/10 * max c.verified_score c.deep_score
        = 35/100 * max 0 c.similarity + 15/100 + 2/10 * c.literal_score
          + 3/10 * max c.verified_score c.deep_score := by
      rw [hl2]
      norm_num
    simp only [buildResult, precisionScore, harg]

/-! ## Claim C8: inferred relation strength -/

/-- Claim C8 (amended): whenever the arbiter's edge step reaches a fresh node
(depth within bound, target not yet recorded at an equal-or-smaller depth,
target distinct from the seed, seed claim present with evidence), it appends
exactly one relation evidence entry to the target claim, whose value is
`round4(clamp(s × hop_penalty, 0, 1))` where `s` is the maximum evidence
value over *all* of the seed claim's evidence entries at the time of the
append (which may include relation entries added earlier in arbitration, not
only direct evidence), with `hop_penalty = 0.78` at depth 1 and `0.58` at
depth 2, hop count equal to the traversal depth, and source key
`relation:{seed}:{target}:{depth}`. -/
theorem claim8_relation_strength (seed : String) (item : BfsItem) (st : BfsState)
    (edge : RelationEdge) (seedClaim : ClaimDraft)
    (hdepth : item.depth + 1 ≤ MAX_HOPS)
    (hfresh : ∀ d, lookupAssoc st.bestDepth edge.target = some d → item.depth + 1 < d)
    (hne : edge.target ≠ seed)
    (hseed : lookupClaim st.claims seed = some seedClaim)
    (hev : seedClaim.evidence ≠ []) :
    (arbiterEdgeStep seed item st edge).claims =
      updateClaim (setdefaultClaim st.claims edge.target
        { claim_id := edge.target, label := labelFor edge.target }) edge.target
        (fun c => addEvidence { c with is_inferred := true }
          (relationEvidence seed edge.target edge.relation edge.provenance
            (item.conceptPath ++ [edge.target]) (item.relationPath ++ [edge.relation])
            (item.depth + 1) (bestEvidence seedClaim))) ∧
    (relationEvidence seed edge.target edge.relation edge.provenance
        (item.conceptPath ++ [edge.target]) (item.relationPath ++ [edge.relation])
        (item.depth + 1) (bestEvidence seedClaim)).value
      = round4 (clamp01 (bestEvidence seedClaim
          * (if item.depth + 1 = 1 then 78/100 else 58/100))) ∧
    (relationEvidence seed edge.target edge.relation edge.provenance
        (item.conceptPath ++ [edge.target]) (item.relationPath ++ [edge.relation])
        (item.depth + 1) (bestEvidence seedClaim)).hops = item.depth + 1 ∧
    (relationEvidence seed edge.target edge.relation edge.provenance
        (item.conceptPath ++ [edge.target]) (item.relationPath ++ [edge.relation])
        (item.depth + 1) (bestEvidence seedClaim)).source_key
      = "relation:" ++ seed ++ ":" ++ edge.target ++ ":" ++ toString (item.depth + 1) := by
  refine ⟨?_, rfl, rfl, rfl⟩
  have hstep : ¬ (MAX_HOPS < item.depth + 1) := not_lt.mpr hdepth
  cases hlk : lookupAssoc st.bestDepth edge.target with
  | none =>
    simp only [arbiterEdgeStep, hlk, if_neg hstep, Bool.false_eq_true, if_false,
      if_neg hne, hseed, if_neg hev]
  | some d =>
    have hskip : ¬ (d ≤ item.depth + 1) := Nat.not_le.mpr (hfresh d hlk)
    simp only [arbiterEdgeStep, hlk, if_neg hstep, decide_eq_false hskip,
      Bool.false_eq_true, if_false, if_neg hne, hseed, if_neg hev]

unseal Rat.add Rat.mul Rat.inv Rat.sub in
/-- Claim C8, witness for the amended theorem at a concrete edge step. -/
theorem claim8_relation_strength_witness :
    ((chainBfsItemA.depth + 1 ≤ MAX_HOPS) ∧
      (∀ d, lookupAssoc chainBfsStateA.bestDepth chainEdgeAB.target = some d →
        chainBfsItemA.depth + 1 < d) ∧
      chainEdgeAB.target ≠ "a" ∧
      lookupClaim chainBfsStateA.claims "a" = some seedClaimA ∧
      seedClaimA.evidence ≠ []) ∧
    ((arbiterEdgeStep "a" chainBfsItemA chainBfsStateA chainEdgeAB).claims =
      updateClaim (setdefaultClaim chainBfsStateA.claims chainEdgeAB.target
        { claim_id := chainEdgeAB.target, label := labelFor chainEdgeAB.target })
        chainEdgeAB.target
        (fun c => addEvidence { c with is_inferred := true }
          (relationEvidence "a" chainEdgeAB.target chainEdgeAB.relation chainEdgeAB.provenance
            (chainBfsItemA.conceptPath ++ [chainEdgeAB.target])
            (chainBfsItemA.relationPath ++ [chainEdgeAB.relation])
            (chainBfsItemA.depth + 1) (bestEvidence seedClaimA))) ∧
      (relationEvidence "a" chainEdgeAB.target chainEdgeAB.relation chainEdgeAB.provenance
          (chainBfsItemA.conceptPath ++ [chainEdgeAB.target])
          (chainBfsItemA.relationPath ++ [chainEdgeAB.relation])
          (chainBfsItemA.depth + 1) (bestEvidence seedClaimA)).value
        = round4 (clamp01 (bestEvidence seedClaimA
            * (if chainBfsItemA.depth + 1 = 1 then 78/100 else 58/100))) ∧
      (relationEvidence "a" chainEdgeAB.target chainEdgeAB.relation chainEdgeAB.provenance
          (chainBfsItemA.conceptPath ++ [chainEdgeAB.target])
          (chainBfsItemA.relationPath ++ [chainEdgeAB.relation])
          (chainBfsItemA.depth + 1) (bestEvidence seedClaimA)).hops = chainBfsItemA.depth + 1 ∧
      (relationEvidence "a" chainEdgeAB.target chainEdgeAB.relation chainEdgeAB.provenance
          (chainBfsItemA.conceptPath ++ [chainEdgeAB.target])
          (chainBfsItemA.relationPath ++ [chainEdgeAB.relation])
          (chainBfsItemA.depth + 1) (bestEvidence seedClaimA)).source_key
        = "relation:" ++ "a" ++ ":" ++ chainEdgeAB.target ++ ":"
          ++ toString (chainBfsItemA.depth + 1)) := by
  have hfresh : ∀ d, lookupAssoc chainBfsStateA.bestDepth chainEdgeAB.target = some d →
      chainBfsItemA.depth + 1 < d := by
    intro d hd
    rw [show lookupAssoc chainBfsStateA.bestDepth chainEdgeAB.target = none from by decide] at hd
    exact Option.noConfusion hd
  exact ⟨⟨by decide, hfresh, by decide, by decide, by decide⟩,
    claim8_relation_strength "a" chainBfsItemA chainBfsStateA chainEdgeAB seedClaimA
      (by decide) hfresh (by decide) (by decide) (by decide)⟩

unseal Rat.add Rat.mul Rat.inv Rat.sub in
/-- Claim C8, counterexample to the claim as stated: in the chain
`a → b → c` with direct strengths `a : 0.9` and `b : 0.1`, seed `a` first
adds a relation entry of value `0.9·0.78 = 0.702` to `b`; when `b` is then
processed as a seed, the entry it appends to `c` at depth 1 has value
`round4(0.702·0.78) = 0.5476`, the maximum being taken over all of `b`'s
evidence — not `0.1·0.78 = 0.078` as the seed's best *direct* evidence value
would give. -/
theorem claim8_counterexample :
    (lookupClaim chainClaims "b").map (fun c => c.evidence.map (fun e => (e.kind, e.value)))
      = some [("menu_item", (1/10 : ℚ))] ∧
    (lookupClaim (relationArbiterApply chainTaxonomy chainClaims) "c").map
        (fun c => c.evidence.map (fun e => (e.source_key, e.value, e.hops)))
      = some [("relation:a:c:2", (261/500 : ℚ), 2), ("relation:b:c:1", (1369/2500 : ℚ), 1)] ∧
    (1369/2500 : ℚ) ≠ clamp01 ((1/10) * (78/100)) := by
  refine ⟨by decide, by decide, by decide⟩

/-! ## Claim C1: the hop bound -/

theorem newClaim_hops_ok (cid label : String) :
    evidenceHopsOK { claim_id := cid, label := label } :=
  ⟨Nat.zero_le 2, fun e he => absurd he (List.not_mem_nil e)⟩

theorem addEvidence_hops_ok {c : ClaimDraft} {e : Evidence}
    (hc : evidenceHopsOK c) (he : e.hops ≤ 2) : evidenceHopsOK (addEvidence c e) := by
  constructor
  · rw [addEvidence_max_hops]
    exact max_le hc.1 he
  · rw [addEvidence_evidence]
    intro x hx
    rcases List.mem_append.mp hx with h | h
    · exact hc.2 x h
    · rw [List.mem_singleton] at h
      subst h
      exact he

theorem foldl_addEvidence_hops_ok {c : ClaimDraft} {l : List Evidence}
    (hc : evidenceHopsOK c) (hl : ∀ e ∈ l, e.hops ≤ 2) :
    evidenceHopsOK (l.foldl addEvidence c) := by
  induction l generalizing c with
  | nil => exact hc
  | cons e rest ih =>
    exact ih (addEvidence_hops_ok hc (hl e (List.mem_cons_self e rest)))
      (fun x hx => hl x (List.mem_cons_of_mem e hx))

theorem updateClaim_hops_ok {m : ClaimMap} {key : String} {f : ClaimDraft → ClaimDraft}
    (hm : mapHopsOK m) (hf : ∀ c, evidenceHopsOK c → evidenceHopsOK (f c)) :
    mapHopsOK (updateClaim m key f) := by
  intro p hp
  unfold updateClaim at hp
  obtain ⟨q, hq, rfl⟩ := List.mem_map.mp hp
  split_ifs with h
  · exact hf _ (hm q hq)
  · exact hm q hq

theorem setdefaultClaim_hops_ok {m : ClaimMap} {key : String} {dflt : ClaimDraft}
    (hm : mapHopsOK m) (hd : evidenceHopsOK dflt) :
    mapHopsOK (setdefaultClaim m key dflt) := by
  unfold setdefaultClaim
  match lookupClaim m key with
  | some _ => exact hm
  | none =>
    intro p hp
    rcases List.mem_append.mp hp with h | h
    · exact hm p h
    · rw [List.mem_singleton] at h
      subst h
      exact hd

theorem mapSpanPhrase_hops_ok (tax : Taxonomy) (span : EvidenceSpan)
    (acc : ClaimMap × List String) (phrase : String)
    (h : mapHopsOK acc.1) : mapHopsOK (mapSpanPhrase tax span acc phrase).1 := by
  unfold mapSpanPhrase
  split
  · exact h
  · split_ifs
    · exact h
    · exact updateClaim_hops_ok (setdefaultClaim_hops_ok h (newClaim_hops_ok _ _))
        (fun c hc => addEvidence_hops_ok hc (Nat.zero_le 2))

theorem foldl_mapSpanPhrase_hops_ok (tax : Taxonomy) (span : EvidenceSpan)
    (phrases : List String) (acc : ClaimMap × List String)
    (h : mapHopsOK acc.1) :
    mapHopsOK (phrases.foldl (mapSpanPhrase tax span) acc).1 := by
  induction phrases generalizing acc with
  | nil => exact h
  | cons p rest ih => exact ih _ (mapSpanPhrase_hops_ok _ _ _ _ h)

theorem conceptMapperMap_hops_ok (tax : Taxonomy) (spans : List EvidenceSpan) :
    mapHopsOK (conceptMapperMap tax spans) := by
  unfold conceptMapperMap
  have base : mapHopsOK ([] : ClaimMap) := fun p hp => absurd hp (List.not_mem_nil p)
  have step : ∀ (l : List EvidenceSpan) (m : ClaimMap), mapHopsOK m →
      mapHopsOK (l.foldl (mapSpan tax) m) := by
    intro l
    induction l with
    | nil => exact fun m h => h
    | cons s rest ih =>
      intro m h
      exact ih _ (foldl_mapSpanPhrase_hops_ok tax s _ _ h)
  exact step spans [] base

theorem arbiterEdgeStep_hops_ok (seed : String) (item : BfsItem) (st : BfsState)
    (edge : RelationEdge) (h : mapHopsOK st.claims) :
    mapHopsOK (arbiterEdgeStep seed item st edge).claims := by
  simp only [arbiterEdgeStep]
  split_ifs with h1 h2 h3
  · exact h
  · exact h
  · exact h
  · split
    · exact h
    · split_ifs with h4
      · exact h
      · dsimp only
        refine updateClaim_hops_ok (setdefaultClaim_hops_ok h (newClaim_hops_ok _ _)) ?_
        intro c hc
        refine addEvidence_hops_ok hc ?_
        show item.depth + 1 ≤ 2
        have := Nat.not_lt.mp h1
        simpa [MAX_HOPS] using this

theorem foldl_arbiterEdgeStep_hops_ok (seed : String) (item : BfsItem)
    (edges : List RelationEdge) :
    ∀ st : BfsState, mapHopsOK st.claims →
      mapHopsOK (edges.foldl (arbiterEdgeStep seed item) st).claims := by
  induction edges with
  | nil => exact fun st h => h
  | cons e rest ih =>
    intro st h
    exact ih _ (arbiterEdgeStep_hops_ok seed item st e h)

theorem arbiterLoop_hops_ok (tax : Taxonomy) (seed : String) :
    ∀ (fuel : Nat) (st : BfsState), mapHopsOK st.claims →
      mapHopsOK (arbiterLoop tax seed fuel st) := by
  intro fuel
  induction fuel with
  | zero => exact fun st h => h
  | succ n ih =>
    intro st h
    unfold arbiterLoop
    split
    · exact h
    · split_ifs with hd
      · exact ih _ h
      · exact ih _ (foldl_arbiterEdgeStep_hops_ok seed _ _ _ h)

theorem relationArbiterApply_hops_ok (tax : Taxonomy) (claims : ClaimMap)
    (h : mapHopsOK claims) : mapHopsOK (relationArbiterApply tax claims) := by
  unfold relationArbiterApply
  have step : ∀ (seeds : List String) (acc : ClaimMap), mapHopsOK acc →
      mapHopsOK (seeds.foldl (fun acc seed =>
        arbiterLoop tax seed (arbiterFuel tax) ⟨[(seed, 0)], [⟨seed, 0, [seed], []⟩], acc⟩) acc) := by
    intro seeds
    induction seeds with
    | nil => exact fun acc h => h
    | cons s rest ih =>
      intro acc hacc
      exact ih _ (arbiterLoop_hops_ok tax s _ _ hacc)
  exact step (mapKeys claims) claims h

theorem tacoRuleStep_hops_ok {tc : ClaimDraft} {acc : ClaimMap} {pr : String × ClaimDraft}
    (htc : evidenceHopsOK tc) (hpr : evidenceHopsOK pr.2) (hacc : mapHopsOK acc) :
    mapHopsOK (tacoRuleStep tc acc pr) := by
  simp only [tacoRuleStep]
  split_ifs with h1 h2
  · exact hacc
  · exact hacc
  · refine updateClaim_hops_ok (setdefaultClaim_hops_ok hacc (newClaim_hops_ok _ _)) ?_
    intro c hc
    refine addEvidence_hops_ok (foldl_addEvidence_hops_ok hc ?_) (Nat.zero_le 2)
    intro e he
    rcases List.mem_append.mp he with h | h
    · exact htc.2 e (List.mem_of_mem_take h)
    · exact hpr.2 e (List.mem_of_mem_take h)

theorem foldl_tacoRuleStep_hops_ok {tc : ClaimDraft} (htc : evidenceHopsOK tc)
    (l : List (String × ClaimDraft)) (hl : ∀ pr ∈ l, evidenceHopsOK pr.2) :
    ∀ acc : ClaimMap, mapHopsOK acc → mapHopsOK (l.foldl (tacoRuleStep tc) acc) := by
  induction l with
  | nil => exact fun acc h => h
  | cons pr rest ih =>
    intro acc hacc
    exact ih (fun q hq => hl q (List.mem_cons_of_mem pr hq)) _
      (tacoRuleStep_hops_ok htc (hl pr (List.mem_cons_self pr rest)) hacc)

theorem tacoRule_hops_ok {claims : ClaimMap} (h : mapHopsOK claims) :
    mapHopsOK (tacoRule claims) := by
  unfold tacoRule
  match htc : lookupClaim claims "food.taco" with
  | none => exact h
  | some tc =>
    exact foldl_tacoRuleStep_hops_ok
      (h _ (lookupAssoc_mem claims "food.taco" tc htc)) claims (fun pr hpr => h pr hpr)
      claims h

theorem pediRule_hops_ok {claims : ClaimMap} (h : mapHopsOK claims) :
    mapHopsOK (pediRule claims) := by
  simp only [pediRule]
  split
  next nailpolishClaim pedicureClaim hn hp =>
    split_ifs with hs
    · refine updateClaim_hops_ok (setdefaultClaim_hops_ok h (newClaim_hops_ok _ _)) ?_
      intro c hc
      refine addEvidence_hops_ok (foldl_addEvidence_hops_ok hc ?_) (Nat.zero_le 2)
      intro e he
      rcases List.mem_append.mp he with h1 | h1
      · exact (h _ (lookupAssoc_mem claims "service.nailpolish" _ hn)).2 e (List.mem_of_mem_take h1)
      · exact (h _ (lookupAssoc_mem claims "service.pedicure" _ hp)).2 e (List.mem_of_mem_take h1)
    · exact h
  next => exact h

theorem compositionApply_hops_ok {claims : ClaimMap} (h : mapHopsOK claims) :
    mapHopsOK (compositionApply claims) :=
  pediRule_hops_ok (tacoRule_hops_ok h)

theorem scoringScore_hops_ok {claims : ClaimMap} (h : mapHopsOK claims) :
    mapHopsOK (scoringScore claims) := by
  intro p hp
  obtain ⟨q, hq, rfl⟩ := List.mem_map.mp hp
  exact h q hq

/-- Claim C1: on arbitrary input data and an arbitrary taxonomy, every claim
produced by the full pipeline (mapping, bounded-hop relation arbitration,
composition, scoring) has `max_hops ≤ 2`, and every evidence entry on every
claim carries `hops ≤ 2`. -/
theorem claim1_hop_bound (tax : Taxonomy) (spans : List EvidenceSpan) :
    (pipelineClaims tax spans).Forall (fun p =>
      p.2.max_hops ≤ 2 ∧ p.2.evidence.Forall (fun e => e.hops ≤ 2)) := by
  have h : mapHopsOK (pipelineClaims tax spans) :=
    scoringScore_hops_ok (compositionApply_hops_ok
      (relationArbiterApply_hops_ok tax _ (conceptMapperMap_hops_ok tax (normalizeSpans spans))))
  rw [List.forall_iff_forall_mem]
  intro p hp
  obtain ⟨h1, h2⟩ := h p hp
  exact ⟨h1, List.forall_iff_forall_mem.mpr h2⟩

/-! ## Claim C2: composition gating -/

theorem string_data_append (s t : String) : (s ++ t).data = s.data ++ t.data := rfl

theorem string_ext {s t : String} (h : s.data = t.data) : s = t := by
  cases s
  cases t
  exact congrArg String.mk h

theorem string_append_cancel {p x y : String} (h : p ++ x = p ++ y) : x = y := by
  have h2 : p.data ++ x.data = p.data ++ y.data := by
    rw [← string_data_append, ← string_data_append, h]
  exact string_ext (List.append_cancel_left h2)

theorem taco_composed_head (X : String) :
    ("food.taco.filling." ++ X).data.head? = some 'f' := rfl

theorem ne_composed_of_head {s : String} (hs : s.data.head? ≠ some 'f') (X : String) :
    s ≠ "food.taco.filling." ++ X := by
  intro h
  exact hs (by rw [h, taco_composed_head])

theorem pedi_ne_composed (X : String) :
    ("food.taco.filling." ++ X) ≠ "service.pedi_mani_combo" := by
  intro h
  exact ne_composed_of_head (s := "service.pedi_mani_combo") (by decide) X h.symm

theorem strDrop_append (p x : String) : strDrop (p ++ x) p.length = x := by
  apply string_ext
  show (p ++ x).data.drop p.data.length = x.data
  rw [string_data_append]
  exact List.drop_left p.data x.data

theorem strStartsWith_append (p x : String) : strStartsWith (p ++ x) p = true := by
  apply decide_eq_true
  show p.data <+: (p ++ x).data
  rw [string_data_append]
  exact List.prefix_append p.data x.data

theorem startsWith_decomp {s p : String} (h : strStartsWith s p = true) :
    s = p ++ strDrop s p.length := by
  have hp : p.data <+: s.data := of_decide_eq_true h
  obtain ⟨t, ht⟩ := hp
  apply string_ext
  rw [string_data_append]
  show s.data = p.data ++ s.data.drop p.data.length
  rw [← ht, List.drop_left]

theorem lookupAssoc_updateClaim_ne (m : ClaimMap) (key k : String)
    (f : ClaimDraft → ClaimDraft) (h : k ≠ key) :
    lookupClaim (updateClaim m key f) k = lookupClaim m k := by
  induction m with
  | nil => rfl
  | cons p rest ih =>
    obtain ⟨pk, pv⟩ := p
    simp only [updateClaim, List.map_cons] at ih ⊢
    by_cases hp : pk = key
    · subst hp
      simp only [if_pos rfl]
      show lookupAssoc ((pk, f pv) :: _) k = lookupAssoc ((pk, pv) :: _) k
      simp only [lookupAssoc, if_neg h]
      exact ih
    · simp only [if_neg hp]
      show lookupAssoc ((pk, pv) :: _) k = lookupAssoc ((pk, pv) :: _) k
      simp only [lookupAssoc]
      split_ifs
      · rfl
      · exact ih

theorem lookupAssoc_append_single_ne {α : Type} (l : List (String × α)) (key k : String)
    (v : α) (h : k ≠ key) : lookupAssoc (l ++ [(key, v)]) k = lookupAssoc l k := by
  induction l with
  | nil => simp [lookupAssoc, h]
  | cons p rest ih =>
    obtain ⟨pk, pv⟩ := p
    simp only [List.cons_append, lookupAssoc]
    split_ifs
    · rfl
    · exact ih

theorem lookupClaim_setdefaultClaim_ne (m : ClaimMap) (key k : String) (v : ClaimDraft)
    (h : k ≠ key) : lookupClaim (setdefaultClaim m key v) k = lookupClaim m k := by
  unfold setdefaultClaim
  cases lookupClaim m key with
  | some _ => rfl
  | none => exact lookupAssoc_append_single_ne m key k v h

theorem lookupClaim_tacoRuleStep_ne (tc : ClaimDraft) (acc : ClaimMap)
    (pr : String × ClaimDraft) (k : String) (h : k ≠ composedIdOf pr.1) :
    lookupClaim (tacoRuleStep tc acc pr) k = lookupClaim acc k := by
  unfold composedIdOf at h
  simp only [tacoRuleStep]
  split_ifs with h1 h2
  · rfl
  · rfl
  · rw [lookupAssoc_updateClaim_ne _ _ _ _ h, lookupClaim_setdefaultClaim_ne _ _ _ _ h]

theorem lookupClaim_foldl_tacoRuleStep_ne (tc : ClaimDraft)
    (l : List (String × ClaimDraft)) :
    ∀ (acc : ClaimMap) (k : String), (∀ pr ∈ l, k ≠ composedIdOf pr.1) →
      lookupClaim (l.foldl (tacoRuleStep tc) acc) k = lookupClaim acc k := by
  induction l with
  | nil => intro acc k _; rfl
  | cons pr rest ih =>
    intro acc k hk
    rw [List.foldl_cons, ih _ _ (fun q hq => hk q (List.mem_cons_of_mem pr hq)),
      lookupClaim_tacoRuleStep_ne _ _ _ _ (hk pr (List.mem_cons_self pr rest))]

theorem lookupClaim_tacoRule_ne (m : ClaimMap) (k : String)
    (hk : ∀ X : String, k ≠ "food.taco.filling." ++ X) :
    lookupClaim (tacoRule m) k = lookupClaim m k := by
  unfold tacoRule
  cases lookupClaim m "food.taco" with
  | none => rfl
  | some tc => exact lookupClaim_foldl_tacoRuleStep_ne tc m m k (fun pr _ => hk _)

theorem mem_mapKeys_tacoRuleStep (tc : ClaimDraft) (acc : ClaimMap)
    (pr : String × ClaimDraft) (k : String) :
    k ∈ mapKeys (tacoRuleStep tc acc pr) ↔
      k ∈ mapKeys acc ∨ (strStartsWith pr.1 fillingMarker = true ∧
        2 ≤ (distinctSourceKeys (tc.evidence ++ pr.2.evidence)).length ∧
        k = composedIdOf pr.1) := by
  simp only [tacoRuleStep]
  split_ifs with h1 h2
  · rw [Bool.not_eq_true'] at h1
    simp [h1]
  · have hno : ¬ 2 ≤ (distinctSourceKeys (tc.evidence ++ pr.2.evidence)).length :=
      not_le.mpr h2
    simp [hno]
  · have hsw : strStartsWith pr.1 fillingMarker = true := by simpa using h1
    have hlen : 2 ≤ (distinctSourceKeys (tc.evidence ++ pr.2.evidence)).length :=
      not_lt.mp h2
    rw [mapKeys_updateClaim, mem_mapKeys_setdefaultClaim]
    simp [hsw, hlen, composedIdOf]

theorem mem_mapKeys_foldl_tacoRuleStep (tc : ClaimDraft)
    (l : List (String × ClaimDraft)) :
    ∀ (acc : ClaimMap) (k : String),
      k ∈ mapKeys (l.foldl (tacoRuleStep tc) acc) ↔
        k ∈ mapKeys acc ∨ ∃ pr ∈ l, strStartsWith pr.1 fillingMarker = true ∧
          2 ≤ (distinctSourceKeys (tc.evidence ++ pr.2.evidence)).length ∧
          k = composedIdOf pr.1 := by
  induction l with
  | nil => intro acc k; simp
  | cons pr rest ih =>
    intro acc k
    rw [List.foldl_cons, ih, mem_mapKeys_tacoRuleStep]
    simp only [List.mem_cons]
    constructor
    · rintro ((h | h) | ⟨q, hq, hP⟩)
      · exact Or.inl h
      · exact Or.inr ⟨pr, Or.inl rfl, h⟩
      · exact Or.inr ⟨q, Or.inr hq, hP⟩
    · rintro (h | ⟨q, (rfl | hq), hP⟩)
      · exact Or.inl (Or.inl h)
      · exact Or.inl (Or.inr hP)
      · exact Or.inr ⟨q, hq, hP⟩

theorem mem_mapKeys_tacoRule (m : ClaimMap) (k : String) :
    k ∈ mapKeys (tacoRule m) ↔ k ∈ mapKeys m ∨
      ∃ tc, lookupClaim m "food.taco" = some tc ∧ ∃ pr ∈ m,
        strStartsWith pr.1 fillingMarker = true ∧
        2 ≤ (distinctSourceKeys (tc.evidence ++ pr.2.evidence)).length ∧
        k = composedIdOf pr.1 := by
  unfold tacoRule
  cases htc : lookupClaim m "food.taco" with
  | none => simp
  | some tc =>
    rw [mem_mapKeys_foldl_tacoRuleStep]
    simp

theorem mem_mapKeys_pediRule (m : ClaimMap) (k : String) :
    k ∈ mapKeys (pediRule m) ↔ k ∈ mapKeys m ∨
      (k = "service.pedi_mani_combo" ∧ ∃ nc pc,
        lookupClaim m "service.nailpolish" = some nc ∧
        lookupClaim m "service.pedicure" = some pc ∧
        2 ≤ (distinctSourceKeys (nc.evidence ++ pc.evidence)).length) := by
  cases hn : lookupClaim m "service.nailpolish" with
  | none => simp [pediRule, hn]
  | some nc =>
    cases hp : lookupClaim m "service.pedicure" with
    | none => simp [pediRule, hn, hp]
    | some pc =>
      simp only [pediRule, hn, hp]
      split_ifs with hs
      · rw [mapKeys_updateClaim, mem_mapKeys_setdefaultClaim]
        constructor
        · rintro (h | rfl)
          · exact Or.inl h
          · exact Or.inr ⟨rfl, nc, pc, rfl, rfl, hs⟩
        · rintro (h | ⟨rfl, -⟩)
          · exact Or.inl h
          · exact Or.inr rfl
      · constructor
        · exact fun h => Or.inl h
        · rintro (h | ⟨rfl, nc', pc', hn', hp', hlen'⟩)
          · exact h
          · injection hn' with hn2
            injection hp' with hp2
            subst hn2
            subst hp2
            exact absurd hlen' hs

/-- Claim C2: a composed claim id appears in the output of the composition
engine (when it was not already present) iff both contributing claims exist
and their evidence lists jointly span at least two distinct non-empty source
keys — stated for both curated rules, `food.taco + food.filling.X ⟹
food.taco.filling.X` and `service.nailpolish + service.pedicure ⟹
service.pedi_mani_combo`. -/
theorem claim2_composition_gating (m : ClaimMap) (hnd : (mapKeys m).Nodup) :
    (∀ X : String, ("food.taco.filling." ++ X) ∉ mapKeys m →
      (("food.taco.filling." ++ X) ∈ mapKeys (compositionApply m) ↔
        ∃ tc fc, lookupClaim m "food.taco" = some tc ∧
          lookupClaim m ("food.filling." ++ X) = some fc ∧
          2 ≤ (distinctSourceKeys (tc.evidence ++ fc.evidence)).length)) ∧
    ("service.pedi_mani_combo" ∉ mapKeys m →
      ("service.pedi_mani_combo" ∈ mapKeys (compositionApply m) ↔
        ∃ nc pc, lookupClaim m "service.nailpolish" = some nc ∧
          lookupClaim m "service.pedicure" = some pc ∧
          2 ≤ (distinctSourceKeys (nc.evidence ++ pc.evidence)).length)) := by
  constructor
  · intro X hX
    unfold compositionApply
    rw [mem_mapKeys_pediRule]
    constructor
    · rintro (h | ⟨heq, -⟩)
      · rw [mem_mapKeys_tacoRule] at h
        rcases h with h | ⟨tc, htc, pr, hpr, hsw, hlen, hcomp⟩
        · exact absurd h hX
        · unfold composedIdOf at hcomp
          have hdrop : X = strDrop pr.1 fillingMarker.length :=
            string_append_cancel (p := "food.taco.filling.") hcomp
          have hpr1 : pr.1 = "food.filling." ++ X := by
            rw [hdrop]
            exact startsWith_decomp hsw
          have hfc : lookupClaim m ("food.filling." ++ X) = some pr.2 := by
            rw [← hpr1]
            exact lookupAssoc_eq_some_of_mem_nodup m pr.1 pr.2 hnd
              (by rw [Prod.mk.eta]; exact hpr)
          exact ⟨tc, pr.2, htc, hfc, hlen⟩
      · exact absurd heq (pedi_ne_composed X)
    · rintro ⟨tc, fc, htc, hfc, hlen⟩
      left
      rw [mem_mapKeys_tacoRule]
      right
      refine ⟨tc, htc, ("food.filling." ++ X, fc), lookupAssoc_mem _ _ _ hfc, ?_, hlen, ?_⟩
      · exact strStartsWith_append "food.filling." X
      · show "food.taco.filling." ++ X = composedIdOf ("food.filling." ++ X)
        unfold composedIdOf
        rw [show strDrop ("food.filling." ++ X) fillingMarker.length = X from
          strDrop_append "food.filling." X]
  · intro hP
    unfold compositionApply
    rw [mem_mapKeys_pediRule]
    have hnp := lookupClaim_tacoRule_ne m "service.nailpolish"
      (ne_composed_of_head (by decide))
    have hpc := lookupClaim_tacoRule_ne m "service.pedicure"
      (ne_composed_of_head (by decide))
    constructor
    · rintro (h | ⟨-, nc, pc, hn, hp, hlen⟩)
      · rw [mem_mapKeys_tacoRule] at h
        rcases h with h | ⟨tc, -, pr, -, -, -, hcomp⟩
        · exact absurd h hP
        · unfold composedIdOf at hcomp
          exact absurd hcomp.symm (pedi_ne_composed _)
      · rw [hnp] at hn
        rw [hpc] at hp
        exact ⟨nc, pc, hn, hp, hlen⟩
    · rintro ⟨nc, pc, hn, hp, hlen⟩
      right
      exact ⟨rfl, nc, pc, by rw [hnp]; exact hn, by rw [hpc]; exact hp, hlen⟩

unseal Rat.add Rat.mul Rat.inv Rat.sub in
/-- Claim C2, witness: with the taco and carnitas-filling claims supported by
the same single menu source no composed claim appears, and after one more
independent evidence-packet source the composed claim
`food.taco.filling.carnitas` appears. -/
theorem claim2_composition_gating_witness :
    (((mapKeys twoSourceClaims).Nodup ∧
        ("food.taco.filling." ++ "carnitas") ∉ mapKeys twoSourceClaims) ∧
      (("food.taco.filling." ++ "carnitas") ∈ mapKeys (compositionApply twoSourceClaims) ↔
        ∃ tc fc, lookupClaim twoSourceClaims "food.taco" = some tc ∧
          lookupClaim twoSourceClaims ("food.filling." ++ "carnitas") = some fc ∧
          2 ≤ (distinctSourceKeys (tc.evidence ++ fc.evidence)).length)) ∧
    (((mapKeys singleSourceClaims).Nodup ∧
        ("food.taco.filling." ++ "carnitas") ∉ mapKeys singleSourceClaims) ∧
      (("food.taco.filling." ++ "carnitas") ∈ mapKeys (compositionApply singleSourceClaims) ↔
        ∃ tc fc, lookupClaim singleSourceClaims "food.taco" = some tc ∧
          lookupClaim singleSourceClaims ("food.filling." ++ "carnitas") = some fc ∧
          2 ≤ (distinctSourceKeys (tc.evidence ++ fc.evidence)).length)) :=
  ⟨⟨⟨by decide, by decide⟩,
      (claim2_composition_gating twoSourceClaims (by decide)).1 "carnitas" (by decide)⟩,
    ⟨⟨by decide, by decide⟩,
      (claim2_composition_gating singleSourceClaims (by decide)).1 "carnitas" (by decide)⟩⟩

end Phase6
